import Mathlib

/-!
Verification of the EPUB CFI parser (`src/parsers.rs`, `src/syntax.rs`).

The parsers are shallowly embedded as functions `List Char → Option (List Char × α)`
returning the remaining input and the parsed value, mirroring nom's
`IResult<&str, T>`.  Conventions of the embedding:

* nom's recoverable `Err::Error` and unrecoverable `Err::Failure` (the latter can
  only arise from the `cut` inside nom's float-exponent recognizer) are both
  collapsed to `none`.
* `u8`/`u32` are modelled by `nomUInt`, nom 7's digit-accumulation loop with a
  checked overflow bound (`> bound` at any step fails the whole parse).
* nom's `float` (an `f32` parser) is modelled over exact rationals built with
  `mkRat`: sign, integer digits, optional fraction, optional `e`-exponent.  The
  binary `f32` rounding and the `inf`/`nan` exceptional forms are not modelled;
  no claim depends on them.
* `alphanumeric1` is modelled over the ASCII alphanumeric range (the Rust code
  uses `char::is_alphanumeric`; every claim only exercises ASCII input).
* The mutually recursive family `local_path`/`redirected_path`/`path_or_offset`/
  `path` is defined with a fuel parameter for termination; the fuel only bounds
  the recursion depth (each recursive cycle consumes at least one character of
  input, so the wrappers' `4 * length + 4` budget is never exhausted).
* The `panic!` catch-all arm of `local_path` is modelled by the third match arm
  of `local_pathF` (returning `none`); claim C10 shows the scrutinee never has
  that shape.
-/

namespace EpubCfi

/-! ## AST (`src/syntax.rs`) -/

/-- `Assertion` from `syntax.rs`: either a parameter list or a bare value. -/
structure Assertion where
  parameters : Option (List (String × String))
  value : Option String

/-- `Step` from `syntax.rs`; `size` is a `u8` in the source (the parser only
produces values `≤ 255`). -/
structure Step where
  size : Nat
  assertion : Option Assertion

/-- `CharacterOffset` from `syntax.rs`; `start_at_point` is a `u32`. -/
structure CharacterOffset where
  start_at_point : Nat
  assertion : Option Assertion

/-- `SpatialOffset` from `syntax.rs`; the `f32` fields are modelled as exact
rationals. -/
structure SpatialOffset where
  start_at_point : ℚ
  end_at_point : Option ℚ
  assertion : Option Assertion

/-- `TemporalOffset` from `syntax.rs`. -/
structure TemporalOffset where
  start_at : ℚ
  spatial_range : Option (ℚ × ℚ)
  assertion : Option Assertion

/-- `Offset` from `syntax.rs`: character (`:`), spatial (`@`) or temporal (`~`). -/
inductive Offset where
  | Character (c : CharacterOffset)
  | Spatial (s : SpatialOffset)
  | Temporal (t : TemporalOffset)

mutual
/-- `Path` from `syntax.rs`: one initial step plus a local path. -/
inductive Path where
  | mk (step : Step) (local_path : LocalPath)

/-- `LocalPath` from `syntax.rs`.  Note the source's field types: `steps:
Vec<Step>`, `redirected_path: Option<RedirectedPath>`, `offset:
Option<Option<Offset>>` (the constructors fill exactly one of the last two). -/
inductive LocalPath where
  | mk (steps : List Step) (redirected_path : Option RedirectedPath)
      (offset : Option (Option Offset))

/-- `RedirectedPath` from `syntax.rs`: `offset: Box<Option<Offset>>`, `path:
Box<Option<Path>>`. -/
inductive RedirectedPath where
  | mk (offset : Option Offset) (path : Option Path)
end

/-- `Range` from `syntax.rs`: two local paths. -/
structure Range where
  start_point : LocalPath
  end_point : LocalPath

/-- `Fragment` from `syntax.rs`: the root node, wrapping the main path. -/
structure Fragment where
  path : Path

/-! ## Lexical primitives (nom) -/

/-- nom's `tag`: match a literal prefix, return the remaining input. -/
def tag (t : List Char) (input : List Char) : Option (List Char) :=
  if t.isPrefixOf input then some (input.drop t.length) else none

/-- ASCII decimal digit test (nom's `is_dec_digit`). -/
def isDigitChar (c : Char) : Bool := 48 ≤ c.toNat && c.toNat ≤ 57

/-- ASCII alphanumeric test (models the alphanumeric class used by nom's
`alphanumeric1`; restricted to ASCII, see the header note). -/
def isAlnumChar (c : Char) : Bool :=
  isDigitChar c || (65 ≤ c.toNat && c.toNat ≤ 90) || (97 ≤ c.toNat && c.toNat ≤ 122)

/-- One-or-more characters satisfying `p` (the shape of nom's `digit1` and
`alphanumeric1`): fails on an empty match. -/
def takeWhile1 (p : Char → Bool) (input : List Char) :
    Option (List Char × List Char) :=
  match input.takeWhile p with
  | [] => none
  | d :: ds => some (input.dropWhile p, d :: ds)

/-- nom's `digit1`. -/
def digit1 (input : List Char) : Option (List Char × List Char) :=
  takeWhile1 isDigitChar input

/-- nom's `alphanumeric1`. -/
def alphanumeric1 (input : List Char) : Option (List Char × List Char) :=
  takeWhile1 isAlnumChar input

/-- The digit-accumulation loop of nom 7's bounded unsigned-integer parsers:
stops at the first non-digit, fails if the accumulated value would exceed
`bound`. -/
def nomUIntLoop (bound : Nat) : Nat → List Char → Option (List Char × Nat)
  | value, [] => some ([], value)
  | value, c :: cs =>
    if isDigitChar c then
      if value * 10 + (c.toNat - 48) ≤ bound then
        nomUIntLoop bound (value * 10 + (c.toNat - 48)) cs
      else none
    else some (c :: cs, value)

/-- nom 7's `character::complete::u8`/`u32` (generic in the bound): requires a
leading digit, then accumulates with a checked bound. -/
def nomUInt (bound : Nat) (input : List Char) : Option (List Char × Nat) :=
  match input with
  | [] => none
  | c :: cs =>
    if isDigitChar c then
      if c.toNat - 48 ≤ bound then nomUIntLoop bound (c.toNat - 48) cs
      else none
    else none

/-- nom's `u8`. -/
def u8 (input : List Char) : Option (List Char × Nat) := nomUInt 255 input

/-- nom's `u32`. -/
def u32 (input : List Char) : Option (List Char × Nat) := nomUInt 4294967295 input

/-- Optional leading sign; returns `true` for non-negative (nom's `sign`). -/
def sign : List Char → Bool × List Char
  | '+' :: r => (true, r)
  | '-' :: r => (false, r)
  | input => (true, input)

/-- Numeric value of a run of ASCII digit characters (most significant first). -/
def natOfDigits (ds : List Char) : Nat :=
  ds.foldl (fun a c => a * 10 + (c.toNat - 48)) 0

/-- nom's `character::complete::i32`, used for the float exponent: optional
sign, then a digit run checked against the `i32` range. -/
def nomI32 (input : List Char) : Option (List Char × Int) :=
  let (pos, r) := sign input
  match nomUInt (if pos then 2147483647 else 2147483648) r with
  | none => none
  | some (rest, m) => some (rest, if pos then (m : Int) else -(m : Int))

/-- nom 7's `number::complete::float`, modelled over exact rationals: optional
sign, integer digits, optional `.` fraction (at least one digit overall),
optional `e`/`E` exponent whose integer is mandatory once the `e` is seen
(nom uses `cut` there; the resulting failure is modelled as `none`). -/
def float (input : List Char) : Option (List Char × ℚ) :=
  let (pos, r1) := sign input
  let intDigits := r1.takeWhile isDigitChar
  let r2 := r1.dropWhile isDigitChar
  let (fracDigits, r3) :=
    match r2 with
    | '.' :: r => (r.takeWhile isDigitChar, r.dropWhile isDigitChar)
    | _ => ([], r2)
  if intDigits.isEmpty && fracDigits.isEmpty then none
  else
    let m : Int :=
      if pos then (natOfDigits (intDigits ++ fracDigits) : Int)
      else -(natOfDigits (intDigits ++ fracDigits) : Int)
    let k := fracDigits.length
    match r3 with
    | 'e' :: r4 =>
      match nomI32 r4 with
      | none => none
      | some (rest, e) =>
        if 0 ≤ e then some (rest, mkRat (m * (10 : Int) ^ e.toNat) (10 ^ k))
        else some (rest, mkRat m (10 ^ k * 10 ^ (-e).toNat))
    | 'E' :: r4 =>
      match nomI32 r4 with
      | none => none
      | some (rest, e) =>
        if 0 ≤ e then some (rest, mkRat (m * (10 : Int) ^ e.toNat) (10 ^ k))
        else some (rest, mkRat m (10 ^ k * 10 ^ (-e).toNat))
    | _ => some (r3, mkRat m (10 ^ k))

/-! ## Assertion parsers (`parameter`, `parameter1`, `params_or_value`,
`assertion` from `parsers.rs`) -/

/-- `parameter`: `alphanumeric1 "=" alphanumeric1`. -/
def parameter (input : List Char) :
    Option (List Char × (List Char × List Char)) :=
  match alphanumeric1 input with
  | none => none
  | some (r1, k) =>
    match tag ['='] r1 with
    | none => none
    | some r2 =>
      match alphanumeric1 r2 with
      | none => none
      | some (r3, v) => some (r3, (k, v))

/-- Iteration of nom's `separated_list1`: keep consuming `";" parameter`; on a
failure after the separator, stop without consuming the separator.  The fuel
only bounds the iteration count (each iteration consumes at least three
characters, so the `length + 1` budget of `parameter1` is never exhausted). -/
def parameter1Loop :
    Nat → List Char → List (List Char × List Char) →
      List Char × List (List Char × List Char)
  | 0, input, acc => (input, acc.reverse)
  | fuel + 1, input, acc =>
    match tag [';'] input with
    | none => (input, acc.reverse)
    | some r1 =>
      match parameter r1 with
      | none => (input, acc.reverse)
      | some (r2, p) => parameter1Loop fuel r2 (p :: acc)

/-- `parameter1`: nom's `separated_list1(tag(";"), parameter)`. -/
def parameter1 (input : List Char) :
    Option (List Char × List (List Char × List Char)) :=
  match parameter input with
  | none => none
  | some (r1, p) => some (parameter1Loop (input.length + 1) r1 [p])

/-- `params_or_value`: first try a one-or-more `key=value` list, else a digit
run (the pair mirrors the source's `(Option<Vec<..>>, Option<&str>)`). -/
def params_or_value (input : List Char) :
    Option (List Char × (Option (List (List Char × List Char)) × Option (List Char))) :=
  match parameter1 input with
  | some (rest, ps) => some (rest, (some ps, none))
  | none =>
    match digit1 input with
    | some (rest, d) => some (rest, (none, some d))
    | none => none

/-- `assertion`: `"[" params_or_value "]"`, converting the borrowed slices to
owned strings exactly as the source does. -/
def assertion (input : List Char) : Option (List Char × Assertion) :=
  match tag ['['] input with
  | none => none
  | some r1 =>
    match params_or_value r1 with
    | none => none
    | some (r2, pv) =>
      match tag [']'] r2 with
      | none => none
      | some r3 =>
        some (r3, Assertion.mk
          (pv.1.map (List.map fun kv => (String.mk kv.1, String.mk kv.2)))
          (pv.2.map String.mk))

/-- nom's `opt`: never fails; on failure of the inner parser, consume nothing. -/
def optP {α : Type} (p : List Char → Option (List Char × α))
    (input : List Char) : List Char × Option α :=
  match p input with
  | some (rest, a) => (rest, some a)
  | none => (input, none)

/-! ## Offset parsers (`character_offset`, `spatial_offset`, `temporal_offset`,
`offset` from `parsers.rs`) -/

/-- `character_offset`: `":" u32 [assertion]`. -/
def character_offset (input : List Char) : Option (List Char × Offset) :=
  match tag [':'] input with
  | none => none
  | some r1 =>
    match u32 r1 with
    | none => none
    | some (r2, point) =>
      let (r3, a) := optP assertion r2
      some (r3, Offset.Character (CharacterOffset.mk point a))

/-- `spatial_offset`: `"@" float ":" [float] [assertion]`. -/
def spatial_offset (input : List Char) : Option (List Char × Offset) :=
  match tag ['@'] input with
  | none => none
  | some r1 =>
    match float r1 with
    | none => none
    | some (r2, start) =>
      match tag [':'] r2 with
      | none => none
      | some r3 =>
        let (r4, e) := optP float r3
        let (r5, a) := optP assertion r4
        some (r5, Offset.Spatial (SpatialOffset.mk start e a))

/-- The optional `"@" float ":" float` sub-range of a temporal offset (both
floats required together). -/
def spatial_range_tail (input : List Char) : Option (List Char × (ℚ × ℚ)) :=
  match tag ['@'] input with
  | none => none
  | some r1 =>
    match float r1 with
    | none => none
    | some (r2, a) =>
      match tag [':'] r2 with
      | none => none
      | some r3 =>
        match float r3 with
        | none => none
        | some (r4, b) => some (r4, (a, b))

/-- `temporal_offset`: `"~" float ["@" float ":" float] [assertion]`. -/
def temporal_offset (input : List Char) : Option (List Char × Offset) :=
  match tag ['~'] input with
  | none => none
  | some r1 =>
    match float r1 with
    | none => none
    | some (r2, t) =>
      let (r3, sr) := optP spatial_range_tail r2
      let (r4, a) := optP assertion r3
      some (r4, Offset.Temporal (TemporalOffset.mk t sr a))

/-- `offset`: `alt((temporal_offset, spatial_offset, character_offset))`, in
that order. -/
def offset (input : List Char) : Option (List Char × Offset) :=
  match temporal_offset input with
  | some r => some r
  | none =>
    match spatial_offset input with
    | some r => some r
    | none => character_offset input

/-! ## Step and path parsers (`step`, `local_path`, `redirected_path`,
`path_or_offset`, `path`, `range`, `fragment` from `parsers.rs`) -/

/-- `step`: `"/" u8 [assertion]`. -/
def step (input : List Char) : Option (List Char × Step) :=
  match tag ['/'] input with
  | none => none
  | some r1 =>
    match u8 r1 with
    | none => none
    | some (r2, size) =>
      let (r3, a) := optP assertion r2
      some (r3, Step.mk size a)

/-- Iteration of nom's `many1(step)` after the first step: keep consuming
steps, stop at the first failure.  Each step consumes at least two characters,
so the `length + 1` fuel budget of `many1_step` is never exhausted. -/
def many1StepLoop : Nat → List Char → List Step → List Char × List Step
  | 0, input, acc => (input, acc.reverse)
  | fuel + 1, input, acc =>
    match step input with
    | none => (input, acc.reverse)
    | some (rest, s) => many1StepLoop fuel rest (s :: acc)

/-- nom's `many1(step)`: at least one step, then greedily as many as match. -/
def many1_step (input : List Char) : Option (List Char × List Step) :=
  match step input with
  | none => none
  | some (r1, s) => some (many1StepLoop (input.length + 1) r1 [s])

mutual
/-- `local_path` with fuel: `many1(step)` then the tail alternative; the
`(some _, some _)` arm models the source's `panic!("Unrecoverable state with
local_path paser")`. -/
def local_pathF : Nat → List Char → Option (List Char × LocalPath)
  | 0, _ => none
  | fuel + 1, input =>
    match many1_step input with
    | none => none
    | some (r1, steps) =>
      match local_path_tail fuel r1 with
      | none => none
      | some (r2, other) =>
        match other with
        | (some p, none) => some (r2, LocalPath.mk steps (some p) none)
        | (none, o) => some (r2, LocalPath.mk steps none (some o))
        | (some _, some _) => none

/-- The tail alternative of `local_path`:
`alt((map(redirected_path, |p| (Some(p), None)), map(opt(offset), |o| (None, o))))`. -/
def local_path_tail :
    Nat → List Char → Option (List Char × (Option RedirectedPath × Option Offset))
  | 0, _ => none
  | fuel + 1, input =>
    match redirected_pathF fuel input with
    | some (rest, p) => some (rest, (some p, none))
    | none =>
      let (rest, o) := optP offset input
      some (rest, (none, o))

/-- `redirected_path` with fuel: `"!" path_or_offset`; note the source builds
`RedirectedPath::new(offset, path)` from the pair `(maybe_path, maybe_offset)`. -/
def redirected_pathF : Nat → List Char → Option (List Char × RedirectedPath)
  | 0, _ => none
  | fuel + 1, input =>
    match tag ['!'] input with
    | none => none
    | some r1 =>
      match path_or_offsetF fuel r1 with
      | none => none
      | some (r2, pr) => some (r2, RedirectedPath.mk pr.2 pr.1)

/-- `path_or_offset` with fuel:
`alt((map(path, |p| (Some(p), None)), map(offset, |o| (None, Some(o)))))`. -/
def path_or_offsetF :
    Nat → List Char → Option (List Char × (Option Path × Option Offset))
  | 0, _ => none
  | fuel + 1, input =>
    match pathF fuel input with
    | some (rest, p) => some (rest, (some p, none))
    | none =>
      match offset input with
      | some (rest, o) => some (rest, (none, some o))
      | none => none

/-- `path` with fuel: `step` then `local_path`. -/
def pathF : Nat → List Char → Option (List Char × Path)
  | 0, _ => none
  | fuel + 1, input =>
    match step input with
    | none => none
    | some (r1, s) =>
      match local_pathF fuel r1 with
      | none => none
      | some (r2, lp) => some (r2, Path.mk s lp)
end

/-- Fuel budget for the mutually recursive path family: every cycle of four
mutual calls consumes at least one character, so this budget always suffices. -/
def fuelFor (input : List Char) : Nat := 4 * input.length + 4

/-- `local_path` from `parsers.rs` (fuel instantiated). -/
def local_path (input : List Char) : Option (List Char × LocalPath) :=
  local_pathF (fuelFor input) input

/-- `redirected_path` from `parsers.rs` (fuel instantiated). -/
def redirected_path (input : List Char) : Option (List Char × RedirectedPath) :=
  redirected_pathF (fuelFor input) input

/-- `path_or_offset` from `parsers.rs` (fuel instantiated). -/
def path_or_offset (input : List Char) :
    Option (List Char × (Option Path × Option Offset)) :=
  path_or_offsetF (fuelFor input) input

/-- `path` from `parsers.rs` (fuel instantiated). -/
def path (input : List Char) : Option (List Char × Path) :=
  pathF (fuelFor input) input

/-- `range`: `"," local_path "," local_path`. -/
def range (input : List Char) : Option (List Char × Range) :=
  match tag [','] input with
  | none => none
  | some r1 =>
    match local_path r1 with
    | none => none
    | some (r2, s) =>
      match tag [','] r2 with
      | none => none
      | some r3 =>
        match local_path r3 with
        | none => none
        | some (r4, e) => some (r4, Range.mk s e)

/-- `fragment`: `"epubcfi" "(" path ")"`; returns any trailing input unconsumed,
exactly like the source's nom parser. -/
def fragment (input : List Char) : Option (List Char × Fragment) :=
  match tag "epubcfi".data input with
  | none => none
  | some r1 =>
    match tag ['('] r1 with
    | none => none
    | some r2 =>
      match path r2 with
      | none => none
      | some (r3, p) =>
        match tag [')'] r3 with
        | none => none
        | some r4 => some (r4, Fragment.mk p)

/-! ## Structural invariants of the AST (for claim C4) -/

mutual
/-- Recursive well-formedness of a `Path`: its local path is well formed. -/
def pathWF : Path → Bool
  | .mk _ lp => localPathWF lp

/-- Exactly one of `redirected_path` / `offset` is populated, recursively. -/
def localPathWF : LocalPath → Bool
  | .mk _ rp off =>
    match rp, off with
    | some r, none => redirectedPathWF r
    | none, some _ => true
    | _, _ => false

/-- Exactly one of `offset` / `path` is populated, recursively. -/
def redirectedPathWF : RedirectedPath → Bool
  | .mk o p =>
    match o, p with
    | some _, none => true
    | none, some q => pathWF q
    | _, _ => false
end

/-- Well-formedness of a parsed fragment: its whole path tree is well formed. -/
def fragmentWF (f : Fragment) : Bool := pathWF f.path

/-- The single-character discriminator each offset variant's text begins with. -/
def discriminatorChar : Offset → Char
  | .Character _ => ':'
  | .Spatial _ => '@'
  | .Temporal _ => '~'

/-! ## Decimal representations (for claim C2) -/

/-- Digit accumulator over digit characters, most significant first (the value
`nomUIntLoop` computes). -/
def foldDigits (v : Nat) (ds : List Char) : Nat :=
  ds.foldl (fun a c => a * 10 + (c.toNat - 48)) v

/-- Digit accumulator over numeric digits, most significant first. -/
def natFold (v : Nat) (ds : List Nat) : Nat :=
  ds.foldl (fun a d => a * 10 + d) v

/-- Value of a least-significant-first digit list. -/
def valLSB : List Nat → Nat
  | [] => 0
  | d :: ds => d + 10 * valLSB ds

/-- Base-10 digits of `n`, least significant first, with explicit fuel (the
standard repeated division; fuel `n` suffices). -/
def decRepAux : Nat → Nat → List Nat
  | 0, _ => []
  | _ + 1, 0 => []
  | fuel + 1, n + 1 => ((n + 1) % 10) :: decRepAux fuel ((n + 1) / 10)

/-- Base-10 digits of `n`, least significant first. -/
def decDigits (n : Nat) : List Nat := decRepAux n n

/-- The ASCII character of a decimal digit. -/
def digitChar (d : Nat) : Char := Char.ofNat (48 + d)

/-- The decimal representation of `n` as text (no sign, no leading zeros,
`"0"` for zero). -/
def decRep (n : Nat) : List Char :=
  if n = 0 then ['0'] else (decDigits n).reverse.map digitChar

/-! ## Helper lemmas about the lexical primitives -/


theorem tag_single_cons (c : Char) (rest : List Char) : tag [c] (c :: rest) = some rest := by
  simp [tag, List.isPrefixOf]

theorem tag_single_eq {c : Char} {input r : List Char}
    (h : tag [c] input = some r) : input = c :: r := by
  cases input with
  | nil => simp [tag, List.isPrefixOf] at h
  | cons x xs =>
    by_cases hcx : c = x
    · subst hcx
      rw [tag_single_cons] at h
      cases h
      rfl
    · simp [tag, List.isPrefixOf, hcx] at h

theorem tag_single_none (c : Char) (input : List Char)
    (h : input.head? ≠ some c) : tag [c] input = none := by
  cases input with
  | nil => simp [tag, List.isPrefixOf]
  | cons x xs =>
    have hcx : ¬ c = x := by
      intro he
      exact h (by simp [he])
    simp [tag, List.isPrefixOf, hcx]

theorem takeWhile_append_all {p : Char → Bool} {ds rest : List Char}
    (h1 : ∀ c ∈ ds, p c = true)
    (h2 : ∀ c, rest.head? = some c → p c = false) :
    (ds ++ rest).takeWhile p = ds ∧ (ds ++ rest).dropWhile p = rest := by
  induction ds with
  | nil =>
    cases rest with
    | nil => simp
    | cons r rs => simp [List.takeWhile_cons, List.dropWhile_cons, h2 r rfl]
  | cons d ds ih =>
    have hd : p d = true := h1 d (by simp)
    have ih' := ih (fun c hc => h1 c (by simp [hc]))
    simp [List.takeWhile_cons, List.dropWhile_cons, hd, ih'.1, ih'.2]

theorem takeWhile1_append {p : Char → Bool} {d : Char} {ds rest : List Char}
    (h1 : ∀ c ∈ d :: ds, p c = true)
    (h2 : ∀ c, rest.head? = some c → p c = false) :
    takeWhile1 p ((d :: ds) ++ rest) = some (rest, d :: ds) := by
  have h := takeWhile_append_all h1 h2
  rw [takeWhile1, h.1, h.2]

theorem digit_toNat_le {c : Char} (h : isDigitChar c = true) : c.toNat - 48 ≤ 9 := by
  simp [isDigitChar] at h
  omega

theorem foldDigits_ge (ds : List Char) (v : Nat) : v ≤ foldDigits v ds := by
  induction ds generalizing v with
  | nil => simp [foldDigits]
  | cons d ds ih =>
    have := ih (v * 10 + (d.toNat - 48))
    simp only [foldDigits, List.foldl_cons] at this ⊢
    omega

theorem nomUIntLoop_spec (bound : Nat) {ds rest : List Char} {v : Nat}
    (hds : ∀ c ∈ ds, isDigitChar c = true)
    (hrest : ∀ c, rest.head? = some c → isDigitChar c = false)
    (hv : v ≤ bound) :
    nomUIntLoop bound v (ds ++ rest) =
      if foldDigits v ds ≤ bound then some (rest, foldDigits v ds) else none := by
  induction ds generalizing v with
  | nil =>
    simp only [List.nil_append, foldDigits, List.foldl_nil, if_pos hv]
    cases rest with
    | nil => rfl
    | cons r rs => simp [nomUIntLoop, hrest r rfl]
  | cons d ds ih =>
    have hd : isDigitChar d = true := hds d (by simp)
    simp only [List.cons_append, nomUIntLoop, hd, if_true]
    by_cases hb : v * 10 + (d.toNat - 48) ≤ bound
    · rw [if_pos hb]
      have hih := ih (fun c hc => hds c (by simp [hc])) hb
      simp only [foldDigits, List.foldl_cons]
      exact hih
    · rw [if_neg hb]
      have hge := foldDigits_ge ds (v * 10 + (d.toNat - 48))
      have : ¬ foldDigits v (d :: ds) ≤ bound := by
        simp only [foldDigits, List.foldl_cons] at *
        omega
      rw [if_neg this]

theorem nomUInt_spec (bound : Nat) {d : Char} {ds : List Char} (rest : List Char)
    (hbound : 9 ≤ bound)
    (hds : ∀ c ∈ d :: ds, isDigitChar c = true)
    (hrest : ∀ c, rest.head? = some c → isDigitChar c = false) :
    nomUInt bound ((d :: ds) ++ rest) =
      if foldDigits 0 (d :: ds) ≤ bound then some (rest, foldDigits 0 (d :: ds)) else none := by
  have hd : isDigitChar d = true := hds d (by simp)
  have hle : d.toNat - 48 ≤ bound := le_trans (digit_toNat_le hd) hbound
  simp only [List.cons_append, nomUInt, hd, if_true, if_pos hle]
  rw [nomUIntLoop_spec bound (fun c hc => hds c (by simp [hc])) hrest hle]
  simp [foldDigits]


/-! ## Helper lemmas about decimal representations -/


theorem decRepAux_lt10 : ∀ fuel n d, d ∈ decRepAux fuel n → d < 10 := by
  intro fuel
  induction fuel with
  | zero => intro n d hd; simp [decRepAux] at hd
  | succ fuel ih =>
    intro n d hd
    cases n with
    | zero => simp [decRepAux] at hd
    | succ m =>
      simp only [decRepAux, List.mem_cons] at hd
      rcases hd with h | h
      · omega
      · exact ih _ _ h

theorem valLSB_decRepAux : ∀ fuel n, n ≤ fuel → valLSB (decRepAux fuel n) = n := by
  intro fuel
  induction fuel with
  | zero => intro n hn; interval_cases n; simp [decRepAux, valLSB]
  | succ fuel ih =>
    intro n hn
    cases n with
    | zero => simp [decRepAux, valLSB]
    | succ m =>
      have hdiv : (m + 1) / 10 ≤ fuel := by
        have := Nat.div_lt_self (Nat.succ_pos m) (by omega : 1 < 10)
        omega
      simp only [decRepAux, valLSB, ih _ hdiv]
      omega

theorem decRepAux_ne_nil {fuel n : Nat} (h1 : 1 ≤ n) (h2 : n ≤ fuel) :
    decRepAux fuel n ≠ [] := by
  cases fuel with
  | zero => omega
  | succ f =>
    cases n with
    | zero => omega
    | succ m => simp [decRepAux]

theorem natFold_reverse_eq_valLSB : ∀ L : List Nat, natFold 0 L.reverse = valLSB L := by
  intro L
  induction L with
  | nil => rfl
  | cons d L ih =>
    simp only [valLSB, List.reverse_cons, natFold, List.foldl_append, List.foldl_cons,
      List.foldl_nil]
    simp only [natFold] at ih
    omega

theorem digitChar_toNat {d : Nat} (h : d < 10) : (digitChar d).toNat = 48 + d := by
  interval_cases d <;> decide

theorem isDigitChar_digitChar {d : Nat} (h : d < 10) : isDigitChar (digitChar d) = true := by
  interval_cases d <;> decide

theorem foldDigits_map_digitChar :
    ∀ (L : List Nat) (v : Nat), (∀ d ∈ L, d < 10) →
      foldDigits v (L.map digitChar) = natFold v L := by
  intro L
  induction L with
  | nil => intro v _; rfl
  | cons d L ih =>
    intro v hlt
    have hd : d < 10 := hlt d (by simp)
    simp only [List.map_cons, foldDigits, List.foldl_cons, digitChar_toNat hd]
    have := ih (v * 10 + d) (fun x hx => hlt x (by simp [hx]))
    simp only [foldDigits, natFold] at this ⊢
    rw [show v * 10 + (48 + d - 48) = v * 10 + d by omega]
    exact this

theorem decRep_digits {n : Nat} : ∀ c ∈ decRep n, isDigitChar c = true := by
  intro c hc
  by_cases hn : n = 0
  · subst hn
    simp only [decRep, if_pos] at hc
    simp only [List.mem_singleton] at hc
    subst hc
    decide
  · simp only [decRep, if_neg hn, List.mem_map] at hc
    obtain ⟨d, hd, rfl⟩ := hc
    have := decRepAux_lt10 n n d (List.mem_reverse.mp hd)
    exact isDigitChar_digitChar this

theorem decRep_ne_nil (n : Nat) : decRep n ≠ [] := by
  by_cases hn : n = 0
  · subst hn; simp [decRep]
  · simp only [decRep, if_neg hn]
    intro h
    rw [List.map_eq_nil_iff, List.reverse_eq_nil_iff] at h
    exact decRepAux_ne_nil (by omega) (le_refl n) h

theorem foldDigits_decRep (n : Nat) : foldDigits 0 (decRep n) = n := by
  by_cases hn : n = 0
  · subst hn; decide
  · simp only [decRep, if_neg hn, decDigits]
    rw [foldDigits_map_digitChar _ 0
      (fun d hd => decRepAux_lt10 n n d (List.mem_reverse.mp hd))]
    rw [natFold_reverse_eq_valLSB]
    exact valLSB_decRepAux n n (le_refl n)


/-! ## Helper lemmas about the offset parsers, and claims C5, C7, C8 -/


theorem alnum_of_digit {c : Char} (h : isDigitChar c = true) : isAlnumChar c = true := by
  simp [isAlnumChar, h]

theorem temporal_offset_shape {input rest : List Char} {o : Offset}
    (h : temporal_offset input = some (rest, o)) :
    input.head? = some '~' ∧ ∃ t, o = Offset.Temporal t := by
  simp only [temporal_offset] at h
  cases htag : tag ['~'] input with
  | none => simp [htag] at h
  | some r1 =>
    simp only [htag] at h
    cases hf : float r1 with
    | none => simp [hf] at h
    | some p =>
      obtain ⟨r2, t⟩ := p
      simp only [hf] at h
      rcases hsp : optP spatial_range_tail r2 with ⟨r3, sr⟩
      rcases ha : optP assertion r3 with ⟨r4, a⟩
      simp only [hsp, ha] at h
      cases h
      exact ⟨by simp [tag_single_eq htag], _, rfl⟩

theorem spatial_offset_shape {input rest : List Char} {o : Offset}
    (h : spatial_offset input = some (rest, o)) :
    input.head? = some '@' ∧ ∃ s, o = Offset.Spatial s := by
  simp only [spatial_offset] at h
  cases htag : tag ['@'] input with
  | none => simp [htag] at h
  | some r1 =>
    simp only [htag] at h
    cases hf : float r1 with
    | none => simp [hf] at h
    | some p =>
      obtain ⟨r2, t⟩ := p
      simp only [hf] at h
      cases hcolon : tag [':'] r2 with
      | none => simp [hcolon] at h
      | some r3 =>
        simp only [hcolon] at h
        rcases he : optP float r3 with ⟨r4, e⟩
        rcases ha : optP assertion r4 with ⟨r5, a⟩
        simp only [he, ha] at h
        cases h
        exact ⟨by simp [tag_single_eq htag], _, rfl⟩

theorem character_offset_shape {input rest : List Char} {o : Offset}
    (h : character_offset input = some (rest, o)) :
    input.head? = some ':' ∧ ∃ c, o = Offset.Character c := by
  simp only [character_offset] at h
  cases htag : tag [':'] input with
  | none => simp [htag] at h
  | some r1 =>
    simp only [htag] at h
    cases hu : u32 r1 with
    | none => simp [hu] at h
    | some p =>
      obtain ⟨r2, point⟩ := p
      simp only [hu] at h
      rcases ha : optP assertion r2 with ⟨r3, a⟩
      simp only [ha] at h
      cases h
      exact ⟨by simp [tag_single_eq htag], _, rfl⟩

/-- C5: the general offset parser tries temporal, then spatial, then character,
in that fixed order; it fails when none of the three alternatives succeeds, and
on success the returned variant is the one whose single-character discriminator
(`~`, `@`, `:`) the input begins with. -/
theorem c5_offset_dispatch (input : List Char) :
    (offset input =
      ((temporal_offset input).orElse fun _ =>
        ((spatial_offset input).orElse fun _ => character_offset input))) ∧
    (∀ rest o, offset input = some (rest, o) →
      input.head? = some (discriminatorChar o)) ∧
    (temporal_offset input = none → spatial_offset input = none →
      character_offset input = none → offset input = none) := by
  refine ⟨?_, ?_, ?_⟩
  · cases h1 : temporal_offset input <;> cases h2 : spatial_offset input <;>
      simp [offset, h1, h2, Option.orElse]
  · intro rest o h
    simp only [offset] at h
    cases h1 : temporal_offset input with
    | some p =>
      simp only [h1] at h
      cases h
      obtain ⟨hh, t, rfl⟩ := temporal_offset_shape h1
      simpa [discriminatorChar] using hh
    | none =>
      simp only [h1] at h
      cases h2 : spatial_offset input with
      | some p =>
        simp only [h2] at h
        cases h
        obtain ⟨hh, s, rfl⟩ := spatial_offset_shape h2
        simpa [discriminatorChar] using hh
      | none =>
        simp only [h2] at h
        obtain ⟨hh, c, rfl⟩ := character_offset_shape h
        simpa [discriminatorChar] using hh
  · intro h1 h2 h3
    simp [offset, h1, h2, h3]

theorem c5_witness : (":10".data).head? = some ':' :=
  (c5_offset_dispatch ":10".data).2.1 [] (Offset.Character ⟨10, none⟩) rfl



/-- C7: for every non-empty digit string `d`, `"[" ++ d ++ "]"` parses as a
bare-value assertion with value `d` and no parameter list (the digits are not
mistaken for the start of a `key=value` parameter, whose `=` is missing). -/
theorem c7_assertion_bare_digits (d : List Char) (hne : d ≠ [])
    (hd : ∀ c ∈ d, isDigitChar c = true) :
    assertion ('[' :: (d ++ [']'])) =
      some ([], Assertion.mk none (some (String.mk d))) := by
  obtain ⟨c0, cs, rfl⟩ : ∃ c0 cs, d = c0 :: cs := by
    cases d with
    | nil => exact absurd rfl hne
    | cons c0 cs => exact ⟨c0, cs, rfl⟩
  have hbr : ∀ c : Char, ([']'] : List Char).head? = some c → isAlnumChar c = false := by
    intro c hc
    simp only [List.head?] at hc
    cases hc
    decide
  have hbrd : ∀ c : Char, ([']'] : List Char).head? = some c → isDigitChar c = false := by
    intro c hc
    simp only [List.head?] at hc
    cases hc
    decide
  have ha1 : alphanumeric1 ((c0 :: cs) ++ [']']) = some ([']'], c0 :: cs) :=
    takeWhile1_append (fun c hc => alnum_of_digit (hd c hc)) hbr
  have hd1 : digit1 ((c0 :: cs) ++ [']']) = some ([']'], c0 :: cs) :=
    takeWhile1_append hd hbrd
  have hpar : parameter ((c0 :: cs) ++ [']']) = none := by
    simp only [parameter, ha1, tag_single_none '=' [']'] (by decide)]
  have hp1 : parameter1 ((c0 :: cs) ++ [']']) = none := by
    simp only [parameter1, hpar]
  have hpv : params_or_value ((c0 :: cs) ++ [']']) =
      some ([']'], (none, some (c0 :: cs))) := by
    simp only [params_or_value, hp1, hd1]
  simp only [assertion, tag_single_cons, hpv, tag_single_cons ']' ([] : List Char),
    Option.map]

theorem c7_witness : (['8'] : List Char) ≠ [] ∧
    assertion "[8]".data = some ([], Assertion.mk none (some "8")) :=
  ⟨by decide, c7_assertion_bare_digits ['8'] (by decide) (by decide)⟩

/-- C8: the assertion parser fails on `"[]"`, and in general fails whenever the
content after the opening bracket is accepted by neither alternative of
`params_or_value`, or is accepted with leftover input that does not resume at
the closing `]`. -/
theorem c8_assertion_failure :
    assertion ('[' :: [']']) = none ∧
    (∀ rest, params_or_value rest = none → assertion ('[' :: rest) = none) ∧
    (∀ rest rest' pv, params_or_value rest = some (rest', pv) →
      rest'.head? ≠ some ']' → assertion ('[' :: rest) = none) := by
  refine ⟨rfl, ?_, ?_⟩
  · intro rest h
    simp only [assertion, tag_single_cons, h]
  · intro rest rest' pv h hne
    simp only [assertion, tag_single_cons, h, tag_single_none ']' rest' hne]

theorem c8_witness :
    params_or_value "8x]".data = some ("x]".data, (none, some ['8'])) ∧
    assertion "[8x]".data = none :=
  ⟨rfl, c8_assertion_failure.2.2 "8x]".data "x]".data (none, some ['8']) rfl (by decide)⟩


/-! ## Claims C3 and C10: the step requirement and the panic arm of local_path -/


theorem local_pathF_none_of_step {fuel : Nat} {input : List Char}
    (h : step input = none) : local_pathF fuel input = none := by
  cases fuel with
  | zero => rfl
  | succ f => simp only [local_pathF, many1_step, h]

/-- C3 (amended): the local-path parser requires at least one step (`many1`):
whenever the step parser fails on the input it fails too, even when a valid
offset tail follows. -/
theorem c3_local_path_needs_step (input : List Char) (h : step input = none) :
    local_path input = none :=
  local_pathF_none_of_step h

/-- C3 counterexample: on the input `":10"`, which begins directly with a valid
character offset, the local-path parser fails, contradicting the claim that it
does not fail there. -/
theorem c3_counterexample : local_path ":10".data = none := rfl

theorem c3_witness : step "@5".data = none ∧ local_path "@5".data = none :=
  ⟨rfl, c3_local_path_needs_step "@5".data rfl⟩

/-- C10: the tail alternative of `local_path` (nom's `alt` over the two
`map`ped branches) can only produce `(Some(p), None)` or `(None, o)`, so the
catch-all `panic!` arm of `local_path`'s `match` is unreachable. -/
theorem c10_local_path_no_panic (fuel : Nat) (input rest : List Char)
    (other : Option RedirectedPath × Option Offset)
    (h : local_path_tail fuel input = some (rest, other)) :
    ∀ p o, other ≠ (some p, some o) := by
  cases fuel with
  | zero => simp [local_path_tail] at h
  | succ f =>
    simp only [local_path_tail] at h
    cases hr : redirected_pathF f input with
    | some pr =>
      obtain ⟨r0, p0⟩ := pr
      simp only [hr] at h
      cases h
      intro p o
      simp
    | none =>
      rcases hopt : optP offset input with ⟨r0, o0⟩
      simp only [hr, hopt] at h
      cases h
      intro p o
      simp

theorem c10_witness :
    ((some (RedirectedPath.mk none (some (Path.mk ⟨4, none⟩
        (LocalPath.mk [⟨1, none⟩] none (some none))))) : Option RedirectedPath),
      (none : Option Offset)) ≠
      (some (RedirectedPath.mk none (some (Path.mk ⟨4, none⟩
        (LocalPath.mk [⟨1, none⟩] none (some none))))),
       some (Offset.Character ⟨0, none⟩)) := by
  exact c10_local_path_no_panic 20 "!/4/1".data [] _ rfl _ _


/-! ## Claim C4: well-formedness of every successful parse -/


/-- Every successful parse of the mutually recursive path family produces a
well-formed node: each `LocalPath` has exactly one of its redirected-path /
offset fields populated, and each `RedirectedPath` exactly one of its offset /
path fields, recursively. -/
theorem parseWF (fuel : Nat) :
    (∀ input rest lp, local_pathF fuel input = some (rest, lp) →
      localPathWF lp = true) ∧
    (∀ input rest other, local_path_tail fuel input = some (rest, other) →
      (∃ p, other = (some p, none) ∧ redirectedPathWF p = true) ∨
      (∃ o, other = ((none : Option RedirectedPath), o))) ∧
    (∀ input rest rp, redirected_pathF fuel input = some (rest, rp) →
      redirectedPathWF rp = true) ∧
    (∀ input rest pr, path_or_offsetF fuel input = some (rest, pr) →
      (∃ p, pr = (some p, none) ∧ pathWF p = true) ∨
      (∃ o, pr = ((none : Option Path), some o))) ∧
    (∀ input rest p, pathF fuel input = some (rest, p) → pathWF p = true) := by
  induction fuel with
  | zero =>
    refine ⟨?_, ?_, ?_, ?_, ?_⟩ <;> intro input rest x h <;>
      simp [local_pathF, local_path_tail, redirected_pathF, path_or_offsetF,
        pathF] at h
  | succ fuel ih =>
    obtain ⟨ihLP, ihTail, ihRP, ihPO, ihP⟩ := ih
    refine ⟨?_, ?_, ?_, ?_, ?_⟩
    · intro input rest lp h
      simp only [local_pathF] at h
      cases hms : many1_step input with
      | none => simp [hms] at h
      | some pr1 =>
        obtain ⟨r1, steps⟩ := pr1
        simp only [hms] at h
        cases htl : local_path_tail fuel r1 with
        | none => simp [htl] at h
        | some pr2 =>
          obtain ⟨r2, other⟩ := pr2
          simp only [htl] at h
          rcases ihTail r1 r2 other htl with ⟨p, rfl, hwf⟩ | ⟨o, rfl⟩
          · simp only [] at h
            cases h
            simp [localPathWF, hwf]
          · simp only [] at h
            cases h
            simp [localPathWF]
    · intro input rest other h
      simp only [local_path_tail] at h
      cases hr : redirected_pathF fuel input with
      | some pr =>
        obtain ⟨r0, p0⟩ := pr
        simp only [hr] at h
        cases h
        exact Or.inl ⟨p0, rfl, ihRP _ _ _ hr⟩
      | none =>
        rcases hopt : optP offset input with ⟨r0, o0⟩
        simp only [hr, hopt] at h
        cases h
        exact Or.inr ⟨o0, rfl⟩
    · intro input rest rp h
      simp only [redirected_pathF] at h
      cases htag : tag ['!'] input with
      | none => simp [htag] at h
      | some r1 =>
        simp only [htag] at h
        cases hpo : path_or_offsetF fuel r1 with
        | none => simp [hpo] at h
        | some pr =>
          obtain ⟨r2, pr2⟩ := pr
          simp only [hpo] at h
          cases h
          rcases ihPO _ _ _ hpo with ⟨p, rfl, hwf⟩ | ⟨o, rfl⟩
          · simp [redirectedPathWF, hwf]
          · simp [redirectedPathWF]
    · intro input rest pr h
      simp only [path_or_offsetF] at h
      cases hp : pathF fuel input with
      | some pr1 =>
        obtain ⟨r0, p0⟩ := pr1
        simp only [hp] at h
        cases h
        exact Or.inl ⟨p0, rfl, ihP _ _ _ hp⟩
      | none =>
        simp only [hp] at h
        cases ho : offset input with
        | none => simp [ho] at h
        | some pr2 =>
          obtain ⟨r0, o0⟩ := pr2
          simp only [ho] at h
          cases h
          exact Or.inr ⟨o0, rfl⟩
    · intro input rest p h
      simp only [pathF] at h
      cases hs : step input with
      | none => simp [hs] at h
      | some pr1 =>
        obtain ⟨r1, s⟩ := pr1
        simp only [hs] at h
        cases hlp : local_pathF fuel r1 with
        | none => simp [hlp] at h
        | some pr2 =>
          obtain ⟨r2, lp⟩ := pr2
          simp only [hlp] at h
          cases h
          simp [pathWF, ihLP _ _ _ hlp]

/-- C4: every successful parse yields an AST in which each `LocalPath` node has
exactly one of `redirected_path` / `offset` populated and each
`RedirectedPath` node exactly one of `offset` / `path`, recursively (stated via
the decidable well-formedness predicates `localPathWF` / `redirectedPathWF`). -/
theorem c4_parse_well_formed (input rest : List Char) (f : Fragment)
    (h : fragment input = some (rest, f)) : fragmentWF f = true := by
  simp only [fragment] at h
  cases h1 : tag "epubcfi".data input with
  | none => simp [h1] at h
  | some r1 =>
    simp only [h1] at h
    cases h2 : tag ['('] r1 with
    | none => simp [h2] at h
    | some r2 =>
      simp only [h2] at h
      cases h3 : path r2 with
      | none => simp [h3] at h
      | some pr =>
        obtain ⟨r3, p⟩ := pr
        simp only [h3] at h
        cases h4 : tag [')'] r3 with
        | none => simp [h4] at h
        | some r4 =>
          simp only [h4] at h
          cases h
          exact (parseWF (fuelFor r2)).2.2.2.2 r2 r3 p h3

theorem c4_witness :
    fragmentWF (Fragment.mk (Path.mk ⟨6, none⟩ (LocalPath.mk [⟨2, none⟩]
      (some (RedirectedPath.mk none (some (Path.mk ⟨4, none⟩
        (LocalPath.mk [⟨1, none⟩] none
          (some (some (Offset.Character ⟨5, none⟩))))))))
      none))) = true := by
  exact c4_parse_well_formed "epubcfi(/6/2!/4/1:5)".data [] _ rfl


/-! ## Claims C1, C2, C6, C9 -/


/-- C1: parsing `"epubcfi(/6/2!/4/1:5)"` succeeds with empty remaining input;
the path starts with step 6, its local path has steps `[2]` and redirects
(`!`) into the path `/4` + local path `[1]` with character offset 5 and no
assertion anywhere; the redirected path carries no nested offset. -/
theorem c1_fragment_complex :
    fragment "epubcfi(/6/2!/4/1:5)".data =
      some ([], Fragment.mk (Path.mk (Step.mk 6 none)
        (LocalPath.mk [Step.mk 2 none]
          (some (RedirectedPath.mk none (some (Path.mk (Step.mk 4 none)
            (LocalPath.mk [Step.mk 1 none] none
              (some (some (Offset.Character (CharacterOffset.mk 5 none)))))))))
          none))) := rfl

/-- C2: for `n ≤ 255`, parsing `"/" ++ decimal(n)` with the step parser
consumes the whole input and yields `Step n` with no assertion; for `n > 255`
(`u8` overflow) it fails. -/
theorem c2_step_decimal (n : Nat) :
    (n ≤ 255 → step ('/' :: decRep n) = some ([], Step.mk n none)) ∧
    (255 < n → step ('/' :: decRep n) = none) := by
  obtain ⟨d, ds, hcons⟩ : ∃ d ds, decRep n = d :: ds := by
    cases h : decRep n with
    | nil => exact absurd h (decRep_ne_nil n)
    | cons d ds => exact ⟨d, ds, rfl⟩
  have hds : ∀ c ∈ d :: ds, isDigitChar c = true := by
    rw [← hcons]; exact decRep_digits
  have hval : foldDigits 0 (d :: ds) = n := by
    rw [← hcons]; exact foldDigits_decRep n
  have hu8 : u8 (decRep n) = if n ≤ 255 then some ([], n) else none := by
    rw [hcons, show (d :: ds) = (d :: ds) ++ ([] : List Char) by simp]
    rw [u8, nomUInt_spec 255 [] (by omega) hds (by simp), hval]
  by_cases hle : n ≤ 255
  · refine ⟨fun _ => ?_, fun hgt => absurd hle (by omega)⟩
    simp only [step, tag_single_cons, hu8, if_pos hle]
    rfl
  · refine ⟨fun hc => absurd hc hle, fun _ => ?_⟩
    simp only [step, tag_single_cons, hu8, if_neg hle]

theorem c2_witness :
    step ('/' :: decRep 255) = some ([], Step.mk 255 none) ∧
    step ('/' :: decRep 256) = none :=
  ⟨(c2_step_decimal 255).1 (by omega), (c2_step_decimal 256).2 (by omega)⟩

/-- C6: the general offset parser accepts `"~2@0.5:1.5[type=note;id=note1]"`
entirely, producing a temporal offset with start 2, spatial range (0.5, 1.5)
and a parameter-list assertion `[("type","note"), ("id","note1")]` in input
order with no bare value. -/
theorem c6_offset_temporal_full :
    (offset "~2@0.5:1.5[type=note;id=note1]".data =
      some ([], Offset.Temporal (TemporalOffset.mk (mkRat 2 1)
        (some (mkRat 1 2, mkRat 3 2))
        (some (Assertion.mk (some [("type", "note"), ("id", "note1")]) none))))) ∧
    mkRat 2 1 = (2 : ℚ) ∧ mkRat 1 2 = (0.5 : ℚ) ∧ mkRat 3 2 = (1.5 : ℚ) := by
  refine ⟨rfl, ?_, ?_, ?_⟩ <;> rw [Rat.mkRat_eq_div] <;> norm_num

/-- C9: if the text after `"epubcfi("` parses as a path but does not resume
with the closing `)`, the fragment parser fails; if it resumes with `)`
followed by extra characters, the fragment parser succeeds and returns the
extra characters as leftover input rather than failing. -/
theorem tag_epubcfi (t : List Char) :
    tag ['e', 'p', 'u', 'b', 'c', 'f', 'i']
      (['e', 'p', 'u', 'b', 'c', 'f', 'i', '('] ++ t) = some ('(' :: t) := rfl

theorem c9_fragment_closing_paren :
    (∀ t rest p, path t = some (rest, p) → rest.head? ≠ some ')' →
      fragment ("epubcfi(".data ++ t) = none) ∧
    (∀ t extra p, path t = some (')' :: extra, p) →
      fragment ("epubcfi(".data ++ t) = some (extra, Fragment.mk p)) := by
  constructor
  · intro t rest p h hne
    simp only [fragment, tag_epubcfi, tag_single_cons, h,
      tag_single_none ')' rest hne]
  · intro t extra p h
    simp only [fragment, tag_epubcfi, tag_single_cons, h]

theorem c9_witness :
    (fragment "epubcfi(/6/2".data = none) ∧
    (fragment "epubcfi(/6/2)xy".data =
      some ("xy".data, Fragment.mk (Path.mk (Step.mk 6 none)
        (LocalPath.mk [Step.mk 2 none] none (some none))))) :=
  ⟨c9_fragment_closing_paren.1 "/6/2".data []
      (Path.mk (Step.mk 6 none) (LocalPath.mk [Step.mk 2 none] none (some none)))
      rfl (by decide),
    c9_fragment_closing_paren.2 "/6/2)xy".data "xy".data
      (Path.mk (Step.mk 6 none) (LocalPath.mk [Step.mk 2 none] none (some none)))
      rfl⟩


/-! ## The source's unit tests, replayed against the embedding -/

example : character_offset ":10".data = some ([], Offset.Character ⟨10, none⟩) := rfl
example : spatial_offset "@2.5:5.3".data =
    some ([], Offset.Spatial ⟨mkRat 25 10, some (mkRat 53 10), none⟩) := rfl
example : temporal_offset "~3.7".data =
    some ([], Offset.Temporal ⟨mkRat 37 10, none, none⟩) := rfl
example : offset ":10[lang=en]".data =
    some ([], Offset.Character ⟨10, some ⟨some [("lang", "en")], none⟩⟩) := rfl
example : offset ":1[8]".data =
    some ([], Offset.Character ⟨1, some ⟨none, some "8"⟩⟩) := rfl
example : step "/6".data = some ([], ⟨6, none⟩) := rfl
example : step "/28[2]".data = some ([], ⟨28, some ⟨none, some "2"⟩⟩) := rfl
example : parameter "id=section1".data = some ([], ("id".data, "section1".data)) := rfl
example : parameter1 "id=section1;class=image".data =
    some ([], [("id".data, "section1".data), ("class".data, "image".data)]) := rfl
example : params_or_value "8".data = some ([], (none, some "8".data)) := rfl
example : params_or_value "1key=1value;2key=2value".data =
    some ([], (some [("1key".data, "1value".data), ("2key".data, "2value".data)], none)) := rfl
example : assertion "[]".data = none := rfl
example : local_path "/2".data = some ([], LocalPath.mk [⟨2, none⟩] none (some none)) := rfl
example : local_path "/6/4/2".data =
    some ([], LocalPath.mk [⟨6, none⟩, ⟨4, none⟩, ⟨2, none⟩] none (some none)) := rfl
example : redirected_path "!/4/1".data =
    some ([], RedirectedPath.mk none (some (Path.mk ⟨4, none⟩
      (LocalPath.mk [⟨1, none⟩] none (some none))))) := rfl
example : redirected_path "!/4/1:10".data =
    some ([], RedirectedPath.mk none (some (Path.mk ⟨4, none⟩
      (LocalPath.mk [⟨1, none⟩] none
        (some (some (Offset.Character ⟨10, none⟩))))))) := rfl
example : path "/6/4/2".data =
    some ([], Path.mk ⟨6, none⟩ (LocalPath.mk [⟨4, none⟩, ⟨2, none⟩] none (some none))) := rfl
example : range ",/6/4,/6/14".data =
    some ([], Range.mk (LocalPath.mk [⟨6, none⟩, ⟨4, none⟩] none (some none))
      (LocalPath.mk [⟨6, none⟩, ⟨14, none⟩] none (some none))) := rfl
example : fragment "epubcfi(/6/2)".data =
    some ([], Fragment.mk (Path.mk ⟨6, none⟩
      (LocalPath.mk [⟨2, none⟩] none (some none)))) := rfl
example : fragment "epubcfi(/6/2[2])".data =
    some ([], Fragment.mk (Path.mk ⟨6, none⟩
      (LocalPath.mk [⟨2, some ⟨none, some "2"⟩⟩] none (some none)))) := rfl
example : (local_path "/1!/1!/1!/1!/1!/1!/1!/1:2".data).isSome = true := rfl

end EpubCfi
